import Mathlib

set_option autoImplicit false

/-
Verification of the URLShortener storage core: a shallow embedding of the
storage backends (Memory, File-Journal, Relational), the short-code
generator, and the batch-delete pipeline, with theorems settling the
specified properties against the embedded code.
-/

namespace URLShortener

/-- Embedding of types.URLData (internal/types/types.go, lines 5-10):
UserID, ShortURL, OriginalURL and the DeletedFlag tombstone marker.
Field order matches the Go struct declaration order. -/
structure URLData where
  userID : String
  shortURL : String
  originalURL : String
  deletedFlag : Bool
deriving Repr, DecidableEq

namespace Memory

/-- Embedding of memorystorage Manager.GetOriginal (memorystorage.go 27-34):
scan RelatesURLs in order, return the first OriginalURL whose ShortURL
matches; the Go error value URL-not-found is modelled as none. -/
def getOriginal : List URLData → String → Option String
  | [], _ => none
  | d :: rest, shortURL =>
    if d.shortURL = shortURL then some d.originalURL else getOriginal rest shortURL

/-- Embedding of memorystorage Manager.Put (memorystorage.go 37-40):
unconditionally append the record to RelatesURLs; never fails. -/
def put (s : List URLData) (urlData : URLData) : List URLData :=
  s ++ [urlData]

/-- Embedding of memorystorage Manager.PutBatch (memorystorage.go 43-51):
Put each record in order; the memory Put never returns an error, so the
loop is a plain fold. -/
def putBatch (s : List URLData) (batchData : List URLData) : List URLData :=
  batchData.foldl put s

/-- Embedding of memorystorage Manager.Exists (memorystorage.go 59-66):
scan RelatesURLs for a record with the given ShortURL. -/
def existsURL : List URLData → String → Bool
  | [], _ => false
  | d :: rest, shortURL =>
    if d.shortURL = shortURL then true else existsURL rest shortURL

/-- Embedding of memorystorage Manager.GetURLsByUserID (memorystorage.go 69-86):
collect every record whose UserID matches, rendered with the configured
base URL prefixed to the short code (UserID and DeletedFlag are not copied
into the rendered record); the no-URLs-found error is modelled as none. -/
def getURLsByUserID (baseURL : String) (s : List URLData) (userID : String) :
    Option (List URLData) :=
  let userURLs := s.foldl
    (fun acc d =>
      if d.userID = userID then
        acc ++ [⟨"", baseURL ++ "/" ++ d.shortURL, d.originalURL, false⟩]
      else acc)
    []
  if userURLs.isEmpty then none else some userURLs

/-- Embedding of memorystorage Manager.BatchDelete (memorystorage.go 89-90):
the body is empty (a placeholder), so the state is returned unchanged
whatever codes and owner are supplied. -/
def batchDelete (s : List URLData) (_codes : List String) (_userID : String) :
    List URLData :=
  s

/-- A mutating interface operation on the memory backend, as exposed by the
storage interface: Put, PutBatch or BatchDelete. -/
inductive Op where
  | put (d : URLData)
  | putBatch (ds : List URLData)
  | batchDelete (codes : List String) (userID : String)

/-- Execute one interface operation on a memory-backend state. -/
def exec (s : List URLData) : Op → List URLData
  | .put d => put s d
  | .putBatch ds => putBatch s ds
  | .batchDelete codes userID => batchDelete s codes userID

/-- Run a sequence of interface operations from a fresh memory backend. -/
def run (ops : List Op) : List URLData :=
  ops.foldl exec []

/-- A sequence of inserts is guarded when each record's short code fails the
Exists check against the state current at the moment that record is
inserted — the discipline the code generator establishes before every
insert. -/
def guardedInserts : List URLData → List URLData → Bool
  | _, [] => true
  | s, d :: rest => !existsURL s d.shortURL && guardedInserts (put s d) rest

end Memory

namespace Postgres

/-- Outcome of the relational Put (postgres.go 111-126): success, the
OriginalExistError conflict carrying the pre-existing short URL, or the
wrapped internal failure from the database driver. -/
inductive PutResult where
  | ok
  | conflict (existingShortURL : String)
  | internal
deriving Repr, DecidableEq

/-- Embedding of the prepared statement of preparePutStatement
(postgres.go 217-230) run against a table state (a list of rows in
insertion order, with UNIQUE constraints on short_url and original_url):
the CTE INSERT with ON CONFLICT (original_url) DO NOTHING inserts only
when the original URL is absent, and the outer SELECT reads the snapshot
taken before the INSERT, so it returns the pre-existing short_url when the
original URL was already mapped and no row otherwise. A unique violation
on short_url (not covered by the ON CONFLICT clause) is a statement error,
modelled as none. -/
def putStmtQuery (s : List URLData) (shortURL originalURL userID : String) :
    Option (List URLData × Option String) :=
  match s.find? (fun r => r.originalURL = originalURL) with
  | some r => some (s, some r.shortURL)
  | none =>
    if s.any (fun r => r.shortURL = shortURL) then none
    else some (s ++ [⟨userID, shortURL, originalURL, false⟩], none)

/-- Embedding of postgres Manager.Put (postgres.go 111-126): run the
prepared statement; a statement error is the wrapped internal failure; a
no-rows result leaves alreadyExistedShortURL at its zero value, and the
conflict error is returned exactly when alreadyExistedShortURL is not the
empty string. -/
def put (s : List URLData) (urlData : URLData) : List URLData × PutResult :=
  match putStmtQuery s urlData.shortURL urlData.originalURL urlData.userID with
  | none => (s, .internal)
  | some (s2, row) =>
    let alreadyExistedShortURL := row.getD ""
    if alreadyExistedShortURL ≠ "" then (s2, .conflict alreadyExistedShortURL)
    else (s2, .ok)

/-- A single plain INSERT INTO shortener (short_url, original_url, user_id)
as issued inside PutBatch (postgres.go 135-137): no ON CONFLICT clause, so
a duplicate short_url or original_url (against committed rows or rows
inserted earlier in the same transaction) is a unique-violation error,
modelled as none; is_deleted takes its DEFAULT FALSE. -/
def insertRow (s : List URLData) (d : URLData) : Option (List URLData) :=
  if s.any (fun r => r.shortURL = d.shortURL || r.originalURL = d.originalURL)
  then none
  else some (s ++ [⟨d.userID, d.shortURL, d.originalURL, false⟩])

/-- The transaction body of PutBatch: issue the inserts in order, stopping
at the first failure. -/
def txInsertAll (s : List URLData) : List URLData → Option (List URLData)
  | [] => some s
  | d :: rest =>
    match insertRow s d with
    | none => none
    | some s2 => txInsertAll s2 rest

/-- Embedding of postgres Manager.PutBatch (postgres.go 129-144): all
inserts run inside one transaction; any failure rolls the transaction back
(the table state reverts to the state before the call) and returns the
error, otherwise the transaction commits. The Bool is true on success. -/
def putBatch (s : List URLData) (batchData : List URLData) :
    List URLData × Bool :=
  match txInsertAll s batchData with
  | none => (s, false)
  | some s2 => (s2, true)

/-- Embedding of postgres Manager.GetURLsByUserID (postgres.go 80-108):
SELECT short_url, original_url FROM shortener WHERE user_id = $1 — with no
filter on is_deleted — each row rendered with the configured base URL
prefixed to the short code; the no-URLs-found error is modelled as none. -/
def getURLsByUserID (baseURL : String) (s : List URLData) (userID : String) :
    Option (List URLData) :=
  let urls := s.foldl
    (fun acc r =>
      if r.userID = userID then
        acc ++ [⟨"", baseURL ++ "/" ++ r.shortURL, r.originalURL, false⟩]
      else acc)
    []
  if urls.isEmpty then none else some urls

/-- Embedding of postgres Manager.updateBatch (postgres.go 180-187):
UPDATE shortener SET is_deleted = TRUE WHERE short_url = ANY($1) AND
user_id = $2. -/
def updateBatch (s : List URLData) (urlsBatch : List String) (userID : String) :
    List URLData :=
  s.map (fun r =>
    if urlsBatch.contains r.shortURL ∧ r.userID = userID then
      ⟨r.userID, r.shortURL, r.originalURL, true⟩
    else r)

/-- The chunking discipline of postgres Manager.BatchDelete
(postgres.go 161-177): drain the channel contents in order, accumulating
codes; flush each time the accumulator reaches batchSize = 10, and flush
the non-empty remainder once the channel closes. Returns the sequence of
flushed chunks in flush order. -/
def batchDeleteChunks : List String → List String → List (List String)
  | acc, [] => if acc.isEmpty then [] else [acc]
  | acc, c :: rest =>
    if (acc ++ [c]).length = 10 then (acc ++ [c]) :: batchDeleteChunks [] rest
    else batchDeleteChunks (acc ++ [c]) rest

/-- The chunks flushed by BatchDelete for a channel that delivers the given
codes and is then closed. -/
def chunkedBatches (codes : List String) : List (List String) :=
  batchDeleteChunks [] codes

/-- Embedding of postgres Manager.BatchDelete (postgres.go 161-177) as the
overall state transformation: every flushed chunk is applied to the table
through updateBatch. -/
def batchDelete (s : List URLData) (codes : List String) (userID : String) :
    List URLData :=
  (chunkedBatches codes).foldl (fun st ch => updateBatch st ch userID) s

end Postgres

namespace UrlShort

/-- The 62-symbol charset of GenerateShortURL (urlshort.go 20). -/
def charset : String :=
  "abcdefghijklmnopqrstuvwxyzABCDEFGHIJKLMNOPQRSTUVWXYZ0123456789"

/-- keyLength = 8 (urlshort.go 21). -/
def keyLength : Nat := 8

theorem charset_toList_length : charset.toList.length = 62 := rfl

/-- One candidate draw of the inner loop of GenerateShortURL
(urlshort.go 27-29): each of the keyLength positions is filled with
charset indexed by an independent rand.Intn(62) draw. -/
def mkCandidate (draw : Fin keyLength → Fin 62) : String :=
  String.mk ((List.finRange keyLength).map
    (fun i => charset.toList.get ((draw i).cast charset_toList_length.symm)))

/-- Outcome of GenerateShortURL: a short URL, or the wrapped internal error
produced when the Exists check fails (urlshort.go 32-35). -/
inductive GenResult where
  | ok (shortURL : String)
  | internal (msg : String)
deriving Repr, DecidableEq

/-- Embedding of the retry loop of GenerateShortURL (urlshort.go 26-41),
indexed by an iteration counter k into the stream of random draws and by
the number of loop iterations still observed (fuel): each iteration builds
a candidate, returns the wrapped error if the Exists query fails, returns
the candidate if Exists reports false, and otherwise redraws. none means
the loop is still running after that many iterations — the source loop
itself has no exit other than the two returns. -/
def generateLoop (ex : String → Except String Bool)
    (draws : Nat → Fin keyLength → Fin 62) : Nat → Nat → Option GenResult
  | _, 0 => none
  | k, fuel + 1 =>
    let shortURL := mkCandidate (draws k)
    match ex shortURL with
    | .error e => some (.internal ("failed to check if URL exists: " ++ e))
    | .ok true => generateLoop ex draws (k + 1) fuel
    | .ok false => some (.ok shortURL)

/-- GenerateShortURL (urlshort.go 19-43) started at the head of the draw
stream. -/
def generateShortURL (ex : String → Except String Bool)
    (draws : Nat → Fin keyLength → Fin 62) (fuel : Nat) : Option GenResult :=
  generateLoop ex draws 0 fuel

end UrlShort

namespace FileStorage

/-- A JSON value appearing in a marshalled URLData record: the string
fields and the boolean tombstone flag. -/
inductive JsonValue where
  | str (s : String)
  | bool (b : Bool)
deriving Repr, DecidableEq

/-- Embedding of encoding/json marshalling for types.URLData
(types/types.go 5-10) as the ordered field list of the emitted JSON
object: fields appear in struct declaration order; user_id, short_url and
original_url carry omitempty so they are dropped when the string is empty;
is_deleted has no omitempty and is always emitted. -/
def marshalURLData (d : URLData) : List (String × JsonValue) :=
  (if d.userID = "" then [] else [("user_id", .str d.userID)]) ++
  (if d.shortURL = "" then [] else [("short_url", .str d.shortURL)]) ++
  (if d.originalURL = "" then [] else [("original_url", .str d.originalURL)]) ++
  [("is_deleted", .bool d.deletedFlag)]

/-- Embedding of filestorage Manager.WriteURL (filestorage.go 130-143): the
journal is the list of newline-terminated lines of the append-only file,
and one successful WriteURL appends exactly one line, the marshalled
record (the single Write call writes the marshalled bytes followed by the
one appended newline byte). -/
def writeURL (journal : List (List (String × JsonValue))) (d : URLData) :
    List (List (String × JsonValue)) :=
  journal ++ [marshalURLData d]

/-- State of the file-journal backend: the in-memory FileStorage slice and
the journal file contents. -/
structure FState where
  fileStorage : List URLData
  journal : List (List (String × JsonValue))
deriving Repr, DecidableEq

/-- Embedding of filestorage Manager.GetOriginal (filestorage.go 48-55):
scan the in-memory slice in order; URL-not-found is modelled as none. -/
def getOriginal : List URLData → String → Option String
  | [], _ => none
  | d :: rest, shortURL =>
    if d.shortURL = shortURL then some d.originalURL else getOriginal rest shortURL

/-- Embedding of filestorage Manager.Exists (filestorage.go 84-91). -/
def existsURL : List URLData → String → Bool
  | [], _ => false
  | d :: rest, shortURL =>
    if d.shortURL = shortURL then true else existsURL rest shortURL

/-- Embedding of filestorage Manager.Put (filestorage.go 58-70): a copy of
the record carrying only ShortURL, OriginalURL and UserID (DeletedFlag is
dropped to its zero value) is appended to the in-memory slice first, and
only then is WriteURL attempted; writeOk models whether the file append
succeeds, and on failure its error is returned (Bool false) with the
journal unchanged — the in-memory append is never undone. -/
def put (s : FState) (d : URLData) (writeOk : Bool) : FState × Bool :=
  let mem2 := s.fileStorage ++ [⟨d.userID, d.shortURL, d.originalURL, false⟩]
  if writeOk then (⟨mem2, writeURL s.journal d⟩, true)
  else (⟨mem2, s.journal⟩, false)

end FileStorage

/-! Helper lemmas about the memory backend. -/

theorem memory_existsURL_eq_false_iff (s : List URLData) (c : String) :
    Memory.existsURL s c = false ↔ ∀ d ∈ s, d.shortURL ≠ c := by
  induction s with
  | nil => simp [Memory.existsURL]
  | cons d rest ih =>
    by_cases h : d.shortURL = c <;> simp [Memory.existsURL, h, ih]

theorem memory_guarded_putBatch_nodup (ds : List URLData) :
    ∀ s : List URLData, (s.map URLData.shortURL).Nodup →
      Memory.guardedInserts s ds = true →
      ((Memory.putBatch s ds).map URLData.shortURL).Nodup := by
  induction ds with
  | nil =>
    intro s hs _
    simpa [Memory.putBatch] using hs
  | cons d rest ih =>
    intro s hs hg
    simp only [Memory.guardedInserts, Bool.and_eq_true, Bool.not_eq_true'] at hg
    obtain ⟨hne, hg⟩ := hg
    have hnotin : d.shortURL ∉ s.map URLData.shortURL := by
      rw [memory_existsURL_eq_false_iff] at hne
      simp only [List.mem_map, not_exists]
      rintro x ⟨hx, hxe⟩
      exact hne x hx hxe
    have hs2 : ((Memory.put s d).map URLData.shortURL).Nodup := by
      simp [Memory.put, List.nodup_append, hs, hnotin]
    have hrest := ih (Memory.put s d) hs2 hg
    simpa [Memory.putBatch, Memory.put] using hrest

/-- C1, counterexample: on a fresh Memory backend, after Put of the record
with code abcd1234, URL https://example.com and owner u1, and BatchDelete
of that code with the matching owner u1, GetOriginal still succeeds with
the original URL — it does not transition to the Gone condition (nor to
any failure), because the memory BatchDelete body is empty and the memory
GetOriginal never consults the tombstone flag. -/
theorem c1_memory_gone_counterexample :
    Memory.getOriginal
        (Memory.batchDelete
          (Memory.put [] ⟨"u1", "abcd1234", "https://example.com", false⟩)
          ["abcd1234"] "u1")
        "abcd1234" = some "https://example.com" ∧
      Memory.getOriginal
        (Memory.batchDelete
          (Memory.put [] ⟨"u1", "abcd1234", "https://example.com", false⟩)
          ["abcd1234"] "u1")
        "abcd1234" ≠ none := by
  constructor
  · decide
  · decide

/-- C1 (amended): on a fresh Memory backend, after Put of the record with
code abcd1234, URL https://example.com and owner u1, GetOriginal returns
the original URL, and it keeps returning it after BatchDelete with any
code list and any owner — matching or not — because the Memory backend's
BatchDelete is an empty placeholder, so the record always remains
retrievable and no Gone condition exists in this backend. -/
theorem c1_memory_batchDelete_noop (codes : List String) (owner : String) :
    Memory.getOriginal
        (Memory.put [] ⟨"u1", "abcd1234", "https://example.com", false⟩)
        "abcd1234" = some "https://example.com" ∧
      Memory.getOriginal
        (Memory.batchDelete
          (Memory.put [] ⟨"u1", "abcd1234", "https://example.com", false⟩)
          codes owner)
        "abcd1234" = some "https://example.com" := by
  refine ⟨by decide, ?_⟩
  simp only [Memory.batchDelete]
  decide

/-- C2, counterexample: the state reached from a fresh Memory backend by the
interface-operation sequence of two Puts of records that share the short
code abcd1234 stores that code twice — the memory Put appends without any
uniqueness check, so the stored short codes are not pairwise distinct. -/
theorem c2_memory_duplicate_counterexample :
    ¬ ((Memory.run
        [.put ⟨"u1", "abcd1234", "https://a.example.com", false⟩,
         .put ⟨"u2", "abcd1234", "https://b.example.com", false⟩]).map
        URLData.shortURL).Nodup := by
  decide

/-- C2 (amended): for every sequence of inserts into a fresh Memory backend
in which each inserted record's short code fails the Exists check against
the state at the moment of its insert (the discipline the code generator
establishes), the short codes stored at the end are pairwise distinct. -/
theorem c2_memory_guarded_inserts_distinct (ds : List URLData)
    (h : Memory.guardedInserts [] ds = true) :
    ((Memory.putBatch [] ds).map URLData.shortURL).Nodup :=
  memory_guarded_putBatch_nodup ds [] (by simp) h

/-- C2 witness: a concrete guarded two-insert sequence whose stored short
codes are pairwise distinct. -/
theorem c2_witness :
    Memory.guardedInserts []
        [⟨"u1", "aaaaaaaa", "https://a.example.com", false⟩,
         ⟨"u1", "bbbbbbbb", "https://b.example.com", false⟩] = true ∧
      ((Memory.putBatch []
        [⟨"u1", "aaaaaaaa", "https://a.example.com", false⟩,
         ⟨"u1", "bbbbbbbb", "https://b.example.com", false⟩]).map
        URLData.shortURL).Nodup :=
  ⟨by decide, c2_memory_guarded_inserts_distinct _ (by decide)⟩

/-! C3: conflict idempotence of the relational Put. -/

/-- C3, counterexample: with requested code c1 equal to the empty string,
the first Put stores the mapping, but the second Put with the same
original URL and a different code returns success, not a Conflict — the
empty-string sentinel used for alreadyExistedShortURL masks the conflict
(postgres.go 121). -/
theorem c3_put_conflict_counterexample :
    (Postgres.put [] ⟨"owner1", "", "https://example.com", false⟩).2 =
        Postgres.PutResult.ok ∧
      (Postgres.put
          (Postgres.put [] ⟨"owner1", "", "https://example.com", false⟩).1
          ⟨"owner2", "c2abcd12", "https://example.com", false⟩).2 =
        Postgres.PutResult.ok ∧
      (Postgres.put
          (Postgres.put [] ⟨"owner1", "", "https://example.com", false⟩).1
          ⟨"owner2", "c2abcd12", "https://example.com", false⟩).2 ≠
        Postgres.PutResult.conflict "" := by
  exact ⟨by decide, by decide, by decide⟩

/-- C3 (amended): for every table state, original URL u unmapped in it, and
requested codes c1 and c2 with c1 distinct from c2, c1 not yet stored and
c1 non-empty, the first Put succeeds and the second Put with the same
original URL returns the Conflict result carrying c1 — not success and not
the internal error — leaving the stored state unchanged. -/
theorem c3_put_conflict_idempotent (s : List URLData) (c1 c2 u o1 o2 : String)
    (hu : ∀ r ∈ s, r.originalURL ≠ u) (hc : ∀ r ∈ s, r.shortURL ≠ c1)
    (hc1 : c1 ≠ "") (_hne : c1 ≠ c2) :
    (Postgres.put s ⟨o1, c1, u, false⟩).2 = Postgres.PutResult.ok ∧
      (Postgres.put (Postgres.put s ⟨o1, c1, u, false⟩).1
          ⟨o2, c2, u, false⟩).2 = Postgres.PutResult.conflict c1 ∧
      (Postgres.put (Postgres.put s ⟨o1, c1, u, false⟩).1
          ⟨o2, c2, u, false⟩).1 = (Postgres.put s ⟨o1, c1, u, false⟩).1 := by
  have hfind : s.find? (fun r => r.originalURL = u) = none :=
    List.find?_eq_none.mpr fun r hr => by simpa using hu r hr
  have hany : s.any (fun r => r.shortURL = c1) = false := by
    simp only [List.any_eq_false, decide_eq_true_eq]
    exact hc
  have h1 : Postgres.put s ⟨o1, c1, u, false⟩ =
      (s ++ [⟨o1, c1, u, false⟩], Postgres.PutResult.ok) := by
    simp [Postgres.put, Postgres.putStmtQuery, hfind, hany]
  have hfind2 : (s ++ [(⟨o1, c1, u, false⟩ : URLData)]).find?
      (fun r => r.originalURL = u) = some ⟨o1, c1, u, false⟩ := by
    rw [List.find?_append, hfind]
    simp
  have h2 : Postgres.put (s ++ [⟨o1, c1, u, false⟩]) ⟨o2, c2, u, false⟩ =
      (s ++ [⟨o1, c1, u, false⟩], Postgres.PutResult.conflict c1) := by
    simp [Postgres.put, Postgres.putStmtQuery, hfind2, hc1]
  have h1s : (Postgres.put s ⟨o1, c1, u, false⟩).1 = s ++ [⟨o1, c1, u, false⟩] := by
    rw [h1]
  have h1r : (Postgres.put s ⟨o1, c1, u, false⟩).2 = Postgres.PutResult.ok := by
    rw [h1]
  refine ⟨h1r, ?_, ?_⟩
  · rw [h1s, h2]
  · rw [h1s, h2]

/-- C3 witness: the amended conflict idempotence at a fresh table and the
concrete codes c1abcd12 and c2abcd12 for https://example.com. -/
theorem c3_witness :
    (Postgres.put [] ⟨"owner1", "c1abcd12", "https://example.com", false⟩).2 =
        Postgres.PutResult.ok ∧
      (Postgres.put
          (Postgres.put [] ⟨"owner1", "c1abcd12", "https://example.com", false⟩).1
          ⟨"owner2", "c2abcd12", "https://example.com", false⟩).2 =
        Postgres.PutResult.conflict "c1abcd12" ∧
      (Postgres.put
          (Postgres.put [] ⟨"owner1", "c1abcd12", "https://example.com", false⟩).1
          ⟨"owner2", "c2abcd12", "https://example.com", false⟩).1 =
        (Postgres.put [] ⟨"owner1", "c1abcd12", "https://example.com", false⟩).1 :=
  c3_put_conflict_idempotent [] "c1abcd12" "c2abcd12" "https://example.com"
    "owner1" "owner2" (by simp) (by simp) (by decide) (by decide)

/-! C4: batch-insert atomicity of the relational PutBatch. -/

theorem postgres_txInsertAll_append (batch : List URLData) :
    ∀ s s2 : List URLData, Postgres.txInsertAll s batch = some s2 →
      s2 = s ++ batch.map (fun d => ⟨d.userID, d.shortURL, d.originalURL, false⟩) := by
  induction batch with
  | nil =>
    intro s s2 h
    simp only [Postgres.txInsertAll, Option.some.injEq] at h
    simp [h.symm]
  | cons d rest ih =>
    intro s s2 h
    simp only [Postgres.txInsertAll] at h
    cases hins : Postgres.insertRow s d with
    | none => rw [hins] at h; cases h
    | some s1 =>
      rw [hins] at h
      have hs2 := ih s1 s2 h
      simp only [Postgres.insertRow] at hins
      split at hins
      · cases hins
      · cases hins
        simp [hs2]

/-- C4: for every table state and batch, if PutBatch reports failure (some
insert in the transaction failed) the stored state equals the state before
the call — none of the records of the batch are visible — and if it
reports success the stored state is the prior state followed by all the
records of the batch in submission order. -/
theorem c4_postgres_putBatch_atomic (s batch : List URLData) :
    ((Postgres.putBatch s batch).2 = false → (Postgres.putBatch s batch).1 = s) ∧
      ((Postgres.putBatch s batch).2 = true →
        (Postgres.putBatch s batch).1 =
          s ++ batch.map (fun d => ⟨d.userID, d.shortURL, d.originalURL, false⟩)) := by
  cases h : Postgres.txInsertAll s batch with
  | none => simp [Postgres.putBatch, h]
  | some s2 => simp [Postgres.putBatch, h, postgres_txInsertAll_append batch s s2 h]

/-- C4 witness: a batch of five records whose fifth record repeats the
original URL of the first violates the uniqueness constraint, so PutBatch
on a fresh table fails and leaves the table empty; and a clean batch of
two distinct records succeeds with both visible in order. -/
theorem c4_witness :
    (Postgres.putBatch []
        [⟨"u1", "c1aaaaaa", "https://one.example.com", false⟩,
         ⟨"u1", "c2aaaaaa", "https://two.example.com", false⟩,
         ⟨"u1", "c3aaaaaa", "https://three.example.com", false⟩,
         ⟨"u1", "c4aaaaaa", "https://four.example.com", false⟩,
         ⟨"u1", "c5aaaaaa", "https://one.example.com", false⟩]).1 = [] ∧
      (Postgres.putBatch []
        [⟨"u1", "c1aaaaaa", "https://one.example.com", false⟩,
         ⟨"u1", "c2aaaaaa", "https://two.example.com", false⟩]).1 =
        [⟨"u1", "c1aaaaaa", "https://one.example.com", false⟩,
         ⟨"u1", "c2aaaaaa", "https://two.example.com", false⟩] :=
  ⟨(c4_postgres_putBatch_atomic [] _).1 (by decide),
   by
    have h := (c4_postgres_putBatch_atomic []
      [⟨"u1", "c1aaaaaa", "https://one.example.com", false⟩,
       ⟨"u1", "c2aaaaaa", "https://two.example.com", false⟩]).2 (by decide)
    simpa using h⟩

/-! C5: owner scoping of GetURLsByUserID. -/

theorem postgres_getURLs_foldl (baseURL userID : String) (s : List URLData) :
    ∀ init : List URLData,
      s.foldl (fun acc r =>
        if r.userID = userID then
          acc ++ [⟨"", baseURL ++ "/" ++ r.shortURL, r.originalURL, false⟩]
        else acc) init =
      init ++ (s.filter (fun r => r.userID = userID)).map
        (fun r => ⟨"", baseURL ++ "/" ++ r.shortURL, r.originalURL, false⟩) := by
  induction s with
  | nil => intro init; simp
  | cons d rest ih =>
    intro init
    by_cases h : d.userID = userID <;> simp [h, ih]

/-- C5, counterexample: in the relational model, starting from a fresh
table, Put a record owned by ownerX, then BatchDelete that code with the
matching owner, which tombstones the row; ownerX now owns zero
non-tombstoned records, yet GetURLsByUserID(ownerX) does not report the
no-records condition — it returns the tombstoned record (rendered with the
base URL prefix), because the SELECT has no is_deleted filter. -/
theorem c5_tombstoned_listed_counterexample :
    Postgres.batchDelete
        (Postgres.put [] ⟨"ownerX", "c1abcd12", "https://example.com", false⟩).1
        ["c1abcd12"] "ownerX" =
      [⟨"ownerX", "c1abcd12", "https://example.com", true⟩] ∧
      Postgres.getURLsByUserID "http://localhost:8080"
        (Postgres.batchDelete
          (Postgres.put [] ⟨"ownerX", "c1abcd12", "https://example.com", false⟩).1
          ["c1abcd12"] "ownerX")
        "ownerX" =
      some [⟨"", "http://localhost:8080/c1abcd12", "https://example.com", false⟩] := by
  exact ⟨by decide, by decide⟩

/-- C5 (amended): for every table state and owner, GetURLsByUserID returns
exactly the records owned by that owner — tombstoned or not — in stored
order, each rendered with the configured base URL prefixed to its code,
and reports the no-records error exactly when the owner owns no record at
all; in particular no record of a different owner is ever returned. The
relational and memory backends behave identically. -/
theorem c5_getURLsByUserID_owner_scoped (baseURL userID : String) (s : List URLData) :
    Postgres.getURLsByUserID baseURL s userID =
      (if (s.filter (fun r => r.userID = userID)).isEmpty then none
       else some ((s.filter (fun r => r.userID = userID)).map
         (fun r => ⟨"", baseURL ++ "/" ++ r.shortURL, r.originalURL, false⟩))) ∧
      Memory.getURLsByUserID baseURL s userID =
      (if (s.filter (fun r => r.userID = userID)).isEmpty then none
       else some ((s.filter (fun r => r.userID = userID)).map
         (fun r => ⟨"", baseURL ++ "/" ++ r.shortURL, r.originalURL, false⟩))) := by
  constructor <;>
  · simp only [Postgres.getURLsByUserID, Memory.getURLsByUserID]
    rw [postgres_getURLs_foldl]
    cases hl : s.filter (fun r => r.userID = userID) with
    | nil => simp [hl]
    | cons a as => simp [hl]

/-! C6 and C7: the code generator. -/

theorem urlshort_mkCandidate_length (d : Fin UrlShort.keyLength → Fin 62) :
    (UrlShort.mkCandidate d).length = 8 := by
  simp only [UrlShort.mkCandidate, String.length, List.length_map,
    List.length_finRange, UrlShort.keyLength]

theorem urlshort_mkCandidate_mem (d : Fin UrlShort.keyLength → Fin 62) :
    ∀ c ∈ (UrlShort.mkCandidate d).toList, c ∈ UrlShort.charset.toList := by
  intro c hc
  simp only [UrlShort.mkCandidate, String.toList, List.mem_map] at hc
  obtain ⟨i, _, rfl⟩ := hc
  exact List.get_mem _ _ _

/-- C6: whenever the generator loop returns a short URL without error — for
any backend Exists behaviour, any stream of random draws, any iteration
point and any number of observed iterations — the returned code has length
exactly 8, every character of it is drawn from the 62-symbol alphanumeric
charset, and the Exists check of the paired backend reports false for it
at the moment of return. -/
theorem c6_generateShortURL_postcondition (ex : String → Except String Bool)
    (draws : Nat → Fin UrlShort.keyLength → Fin 62) (fuel k : Nat) (code : String)
    (h : UrlShort.generateLoop ex draws k fuel = some (.ok code)) :
    code.length = 8 ∧ (∀ c ∈ code.toList, c ∈ UrlShort.charset.toList) ∧
      ex code = .ok false := by
  induction fuel generalizing k with
  | zero => cases h
  | succ n ih =>
    cases hex : ex (UrlShort.mkCandidate (draws k)) with
    | error e => simp [UrlShort.generateLoop, hex] at h
    | ok b =>
      cases b with
      | true =>
        have h2 : UrlShort.generateLoop ex draws (k + 1) n = some (.ok code) := by
          simpa [UrlShort.generateLoop, hex] using h
        exact ih (k + 1) h2
      | false =>
        have hc : UrlShort.mkCandidate (draws k) = code := by
          simpa [UrlShort.generateLoop, hex] using h
        subst hc
        exact ⟨urlshort_mkCandidate_length _, urlshort_mkCandidate_mem _, hex⟩

/-- C6 witness: against a fresh memory backend, the draw stream that always
draws index 0 yields the code aaaaaaaa in one iteration; it has length 8,
all characters in the charset, and the backend Exists check is false. -/
theorem c6_witness :
    ("aaaaaaaa" : String).length = 8 ∧
      (∀ c ∈ ("aaaaaaaa" : String).toList, c ∈ UrlShort.charset.toList) ∧
      (Except.ok (Memory.existsURL [] "aaaaaaaa") : Except String Bool) =
        Except.ok false :=
  c6_generateShortURL_postcondition
    (fun c => .ok (Memory.existsURL [] c)) (fun _ _ => 0) 1 0 "aaaaaaaa" (by decide)

/-- C7: against a faulty backend whose Exists always reports true, the
generator loop of the source never returns — after any number of
iterations it is still running (there is no retry bound and no conversion
to an InternalError), for every draw stream and every starting point. -/
theorem c7_generateLoop_alwaysTrue_diverges
    (draws : Nat → Fin UrlShort.keyLength → Fin 62) (fuel k : Nat) :
    UrlShort.generateLoop (fun _ => .ok true) draws k fuel = none := by
  induction fuel generalizing k with
  | zero => rfl
  | succ n ih => simpa [UrlShort.generateLoop] using ih (k + 1)

/-! C8: chunking discipline of the relational BatchDelete consumer. -/

theorem postgres_bdc_ne_nil (l : List String) :
    ∀ acc : List String, acc ≠ [] → Postgres.batchDeleteChunks acc l ≠ [] := by
  induction l with
  | nil =>
    intro acc h
    simp [Postgres.batchDeleteChunks, h]
  | cons c rest ih =>
    intro acc _
    rw [Postgres.batchDeleteChunks]
    split
    · simp
    · exact ih (acc ++ [c]) (by simp)

theorem postgres_bdc_spec (l : List String) :
    ∀ acc : List String, acc.length < 10 →
      (Postgres.batchDeleteChunks acc l).flatten = acc ++ l ∧
      (∀ ch ∈ (Postgres.batchDeleteChunks acc l).dropLast, ch.length = 10) ∧
      (∀ ch ∈ Postgres.batchDeleteChunks acc l, ch ≠ []) ∧
      ((acc.length + l.length) % 10 ≠ 0 →
        ((Postgres.batchDeleteChunks acc l).getLast?).map List.length =
          some ((acc.length + l.length) % 10)) := by
  induction l with
  | nil =>
    intro acc hacc
    by_cases h : acc = []
    · subst h
      simp [Postgres.batchDeleteChunks]
    · rw [Postgres.batchDeleteChunks]
      have hie : ¬ (acc.isEmpty = true) := by simp [h]
      rw [if_neg hie]
      refine ⟨by simp, by simp, ?_, ?_⟩
      · intro ch hch
        simp only [List.mem_singleton] at hch
        subst hch
        exact h
      · intro _
        simp [Nat.mod_eq_of_lt hacc]
  | cons c rest ih =>
    intro acc hacc
    rw [Postgres.batchDeleteChunks]
    by_cases hfull : (acc ++ [c]).length = 10
    · rw [if_pos hfull]
      have hlen : acc.length + 1 = 10 := by simpa using hfull
      cases rest with
      | nil =>
        rw [show Postgres.batchDeleteChunks [] [] = [] from rfl]
        refine ⟨by simp, by simp, ?_, ?_⟩
        · intro ch hch
          simp only [List.mem_singleton] at hch
          subst hch
          simp
        · intro hmod
          exfalso
          apply hmod
          simp only [List.length_cons, List.length_nil]
          omega
      | cons d rest2 =>
        have hcs : Postgres.batchDeleteChunks [] (d :: rest2) ≠ [] := by
          rw [Postgres.batchDeleteChunks]
          split
          · simp
          · exact postgres_bdc_ne_nil rest2 ([] ++ [d]) (by simp)
        obtain ⟨e, es, hees⟩ := List.exists_cons_of_ne_nil hcs
        obtain ⟨ih1, ih2, ih3, ih4⟩ := ih [] (by decide)
        rw [hees] at ih1 ih2 ih3 ih4 ⊢
        refine ⟨?_, ?_, ?_, ?_⟩
        · simp only [List.flatten_cons, ih1, List.nil_append]
          simp
        · intro ch hch
          rw [List.dropLast_cons₂] at hch
          rcases List.mem_cons.mp hch with hch | hch
          · subst hch
            simpa using hlen
          · exact ih2 ch hch
        · intro ch hch
          rcases List.mem_cons.mp hch with hch | hch
          · subst hch
            simp
          · exact ih3 ch hch
        · intro hmod
          rw [List.getLast?_cons_cons]
          rw [ih4 (by
            simp only [List.length_nil, List.length_cons] at hmod ⊢
            omega)]
          congr 1
          simp only [List.length_nil, List.length_cons]
          omega
    · rw [if_neg hfull]
      have hlt : (acc ++ [c]).length < 10 := by
        simp only [List.length_append, List.length_cons, List.length_nil] at hfull ⊢
        omega
      obtain ⟨ih1, ih2, ih3, ih4⟩ := ih (acc ++ [c]) hlt
      refine ⟨?_, ih2, ih3, ?_⟩
      · rw [ih1]
        simp
      · intro hmod
        rw [ih4 (by
          simp only [List.length_append, List.length_cons, List.length_nil] at hmod ⊢
          omega)]
        congr 1
        simp only [List.length_append, List.length_cons, List.length_nil]
        omega

/-- C8: for every finite sequence of codes delivered on the channel before
closure, the chunks flushed by the relational BatchDelete consumer
concatenate back to the input sequence in order (each code is flushed
exactly once), every flush except possibly the last contains exactly 10
codes, no flush is empty (no flush is issued for an empty remainder), and
when the input length is not a multiple of 10 the final flush contains
exactly the remaining length-mod-10 codes. -/
theorem c8_batchDelete_chunking (codes : List String) :
    (Postgres.chunkedBatches codes).flatten = codes ∧
      (∀ ch ∈ (Postgres.chunkedBatches codes).dropLast, ch.length = 10) ∧
      (∀ ch ∈ Postgres.chunkedBatches codes, ch ≠ []) ∧
      (codes.length % 10 ≠ 0 →
        ((Postgres.chunkedBatches codes).getLast?).map List.length =
          some (codes.length % 10)) := by
  have h := postgres_bdc_spec codes [] (by decide)
  simpa [Postgres.chunkedBatches] using h

/-- C8 witness: thirteen codes are flushed as one full chunk of 10 followed
by a final chunk of 13 mod 10 = 3 codes, whose concatenation is the input. -/
theorem c8_witness :
    (Postgres.chunkedBatches
        ["c01", "c02", "c03", "c04", "c05", "c06", "c07", "c08", "c09", "c10",
         "c11", "c12", "c13"]).flatten =
      ["c01", "c02", "c03", "c04", "c05", "c06", "c07", "c08", "c09", "c10",
       "c11", "c12", "c13"] ∧
      ((Postgres.chunkedBatches
        ["c01", "c02", "c03", "c04", "c05", "c06", "c07", "c08", "c09", "c10",
         "c11", "c12", "c13"]).getLast?).map List.length = some 3 :=
  ⟨(c8_batchDelete_chunking _).1, by
    have h := (c8_batchDelete_chunking
      ["c01", "c02", "c03", "c04", "c05", "c06", "c07", "c08", "c09", "c10",
       "c11", "c12", "c13"]).2.2.2 (by decide)
    simpa using h⟩

/-! C9: persisted layout of the file-journal backend. -/

/-- C9, counterexample: the journal line appended by WriteURL for the
record with owner u1, code abcd1234 and URL https://example.com carries
the field is_deleted — a field outside the set of short_url, original_url
and the optional user_id — because the DeletedFlag field of types.URLData
has no omitempty tag, so every marshalled line includes it. -/
theorem c9_journal_layout_counterexample :
    FileStorage.writeURL [] ⟨"u1", "abcd1234", "https://example.com", false⟩ =
      [[("user_id", FileStorage.JsonValue.str "u1"),
        ("short_url", FileStorage.JsonValue.str "abcd1234"),
        ("original_url", FileStorage.JsonValue.str "https://example.com"),
        ("is_deleted", FileStorage.JsonValue.bool false)]] ∧
      "is_deleted" ∈
        (FileStorage.marshalURLData
          ⟨"u1", "abcd1234", "https://example.com", false⟩).map Prod.fst ∧
      "is_deleted" ∉ (["short_url", "original_url", "user_id"] : List String) := by
  exact ⟨by decide, by decide, by decide⟩

/-- C9 (amended): every successful WriteURL appends exactly one line to the
journal, and for every record with non-empty short and original URL that
line carries exactly the fields short_url, original_url and is_deleted,
plus user_id when the owner id is non-empty — is_deleted is always
present, and nothing else ever is. -/
theorem c9_journal_layout (journal : List (List (String × FileStorage.JsonValue)))
    (d : URLData) (hs : d.shortURL ≠ "") (ho : d.originalURL ≠ "") :
    FileStorage.writeURL journal d = journal ++ [FileStorage.marshalURLData d] ∧
      (FileStorage.marshalURLData d).map Prod.fst =
        (if d.userID = "" then [] else ["user_id"]) ++
          ["short_url", "original_url", "is_deleted"] := by
  refine ⟨rfl, ?_⟩
  by_cases hu : d.userID = "" <;>
    simp [FileStorage.marshalURLData, hu, hs, ho]

/-- C9 witness: the amended layout at the concrete record with owner u1,
code abcd1234 and URL https://example.com. -/
theorem c9_witness :
    FileStorage.writeURL [] ⟨"u1", "abcd1234", "https://example.com", true⟩ =
      [FileStorage.marshalURLData ⟨"u1", "abcd1234", "https://example.com", true⟩] ∧
      (FileStorage.marshalURLData
        ⟨"u1", "abcd1234", "https://example.com", true⟩).map Prod.fst =
        (if ("u1" : String) = "" then [] else ["user_id"]) ++
          ["short_url", "original_url", "is_deleted"] :=
  c9_journal_layout [] ⟨"u1", "abcd1234", "https://example.com", true⟩
    (by decide) (by decide)

/-! C10: the file-journal Put is not atomic on journal-append failure. -/

theorem filestorage_existsURL_append (d : URLData) :
    ∀ s : List URLData, FileStorage.existsURL (s ++ [d]) d.shortURL = true := by
  intro s
  induction s with
  | nil => simp [FileStorage.existsURL]
  | cons a rest ih =>
    by_cases ha : a.shortURL = d.shortURL <;>
      simp [FileStorage.existsURL, ha, ih]

theorem filestorage_getOriginal_append_fresh (d : URLData) :
    ∀ s : List URLData, FileStorage.existsURL s d.shortURL = false →
      FileStorage.getOriginal (s ++ [d]) d.shortURL = some d.originalURL := by
  intro s
  induction s with
  | nil => intro _; simp [FileStorage.getOriginal]
  | cons a rest ih =>
    intro h
    by_cases ha : a.shortURL = d.shortURL
    · simp [FileStorage.existsURL, ha] at h
    · rw [List.cons_append, FileStorage.getOriginal, if_neg ha]
      exact ih (by simpa [FileStorage.existsURL, ha] using h)

/-- C10: for every file-journal state and record, when the journal append
fails Put reports the error, yet the record (with its tombstone flag
dropped to false, as the code copies it) has already been appended to the
in-memory collection while the journal is unchanged — so the failed record
is visible to Exists, and to GetOriginal whenever its code was fresh — the
in-memory state runs ahead of the journal despite the reported failure. -/
theorem c10_filestorage_put_not_atomic (s : FileStorage.FState) (d : URLData) :
    (FileStorage.put s d false).2 = false ∧
      (FileStorage.put s d false).1.fileStorage =
        s.fileStorage ++ [⟨d.userID, d.shortURL, d.originalURL, false⟩] ∧
      (FileStorage.put s d false).1.journal = s.journal ∧
      FileStorage.existsURL (FileStorage.put s d false).1.fileStorage
        d.shortURL = true ∧
      (FileStorage.existsURL s.fileStorage d.shortURL = false →
        FileStorage.getOriginal (FileStorage.put s d false).1.fileStorage
          d.shortURL = some d.originalURL) := by
  refine ⟨rfl, rfl, rfl, ?_, ?_⟩
  · exact filestorage_existsURL_append ⟨d.userID, d.shortURL, d.originalURL, false⟩
      s.fileStorage
  · intro h
    exact filestorage_getOriginal_append_fresh
      ⟨d.userID, d.shortURL, d.originalURL, false⟩ s.fileStorage h

/-- C10 witness: on a fresh file-journal backend, a Put of the record with
code abcd1234 whose journal append fails still leaves the record
retrievable through GetOriginal. -/
theorem c10_witness :
    FileStorage.getOriginal
        (FileStorage.put ⟨[], []⟩
          ⟨"u1", "abcd1234", "https://example.com", false⟩ false).1.fileStorage
        "abcd1234" = some "https://example.com" :=
  (c10_filestorage_put_not_atomic ⟨[], []⟩
    ⟨"u1", "abcd1234", "https://example.com", false⟩).2.2.2.2 (by decide)

end URLShortener
